import Mathlib

/-!
Verification of the document-normalization engine of
`document_processor_rar_zip.py` (class `Document`).

The Python code is shallowly embedded:

* filesystem paths are `List Char` (Python `str`), prose text is `String`;
* the PDF content that `fitz.open` would return is input data (`PdfDoc`),
  with one `PdfPage` per page carrying the `get_drawings()` classification
  and the `get_text("dict")` block list;
* the points where the Python code is guarded by `try/except`
  (pixmap rendering / image saving / description calls) carry explicit
  outcome flags, so that both the happy path and the caught-exception path
  of each `try` block are represented;
* external collaborators that are called but whose code is not part of the
  processor module (`_generate_image_description`, `_convert_to_pdf`, the
  PIL decoder, `os.path.getsize`) are abstract parameters of an `Env`
  record, modelled from the spec's interface boundaries;
* observable side effects (directory creation, image persistence, real
  vision calls, quota placeholders) are recorded in an explicit event
  trace so that the theorems can speak about "number of description calls
  issued", "image persisted", and so on.
-/

namespace DocProc

/-! ### Configuration constants (lines 31–34 of the source) -/

def MIN_IMG_PIXELS : ℕ := 200 * 200

def MAX_VISION_CALLS_PER_PAGE : ℕ := 50

def MAX_IMAGE_DIM : ℕ := 3000

def MAX_IMAGE_SIZE : ℕ := 10 * 1024 * 1024

/-! ### Path utilities (`os.path.basename`, `os.path.join`, `os.path.splitext`) -/

/-- `os.path.basename`: everything after the last `'/'`. -/
def basename (p : List Char) : List Char :=
  (p.reverse.takeWhile (· ≠ '/')).reverse

/-- `os.path.join a b` for POSIX paths: `b` if it is absolute, else `a`
glued to `b` with a single separator. -/
def joinPath (a b : List Char) : List Char :=
  if b.head? = some '/' then b
  else if a = [] ∨ a.getLast? = some '/' then a ++ b
  else a ++ '/' :: b

/-- Split a separator-free name at its LAST dot; `none` if there is no dot. -/
def splitLastDot : List Char → Option (List Char × List Char)
  | [] => none
  | c :: cs =>
    match splitLastDot cs with
    | some (s, e) => some (c :: s, e)
    | none => if c = '.' then some ([], '.' :: cs) else none

/-- `os.path.splitext` on a name that contains no path separator: split at
the last dot, except that leading dots belong to the stem (so `.bashrc`
has no extension), exactly as `posixpath._splitext` does. -/
def splitextName (b : List Char) : List Char × List Char :=
  let lead := b.takeWhile (· = '.')
  let rest := b.drop lead.length
  match splitLastDot rest with
  | none => (b, [])
  | some (s, e) => (lead ++ s, e)

/-- Python `str.lower` on an extension (ASCII in practice). -/
def lowerStr (l : List Char) : List Char := l.map Char.toLower

/-! ### Events, error kinds, outcome flags -/

/-- Observable side effects of processing, for the theorems to count. -/
inductive Event where
  | ensureDirs
  | savePixmap (path : List Char)
  | saveImage (path : List Char) (w h : ℕ)
  | visionCall (path : List Char)
  | placeholderUsed
  deriving DecidableEq, Repr

/-- Errors the processor can raise (`ValueError` cases of the source). -/
inductive ProcErr where
  | temporaryArtifact
  | unsupportedFormat (ext : List Char)
  | unreadableImage
  deriving DecidableEq, Repr

/-- Outcome of the `try` block of the graphics-bearing page branch
(lines 226–241): where, if anywhere, an exception is raised. -/
inductive RasterOutcome where
  | ok
  | failPixmap
  | failSave
  | failDescribe
  deriving DecidableEq, Repr

/-- Outcome of the `try` block guarding one embedded image
(lines 265–276): where, if anywhere, an exception is raised.
`failDescribe` means the description call would raise IF it is issued. -/
inductive ImgOutcome where
  | ok
  | failSave
  | failDescribe
  deriving DecidableEq, Repr

/-! ### PDF content model (what `fitz` hands to `_process_pdf`) -/

/-- One span of `page.get_text("dict")`. -/
structure TextSpan where
  text : String
  deriving DecidableEq, Repr

/-- One line of a text block. -/
structure TextLine where
  spans : List TextSpan
  deriving DecidableEq, Repr

/-- One block of `page.get_text("dict")`: type 0 (text) or type 1 (image). -/
inductive Block where
  | text (lines : List TextLine)
  | image (width height : ℕ) (ext : List Char) (outcome : ImgOutcome)
  deriving DecidableEq, Repr

/-- One PDF page: `hasDrawings` is the `page.get_drawings()` test,
`raster` the outcome of the graphics branch, `blocks` the text branch's
block list. -/
structure PdfPage where
  hasDrawings : Bool
  raster : RasterOutcome
  blocks : List Block
  deriving DecidableEq, Repr

/-- A PDF document as opened by `fitz.open`. -/
structure PdfDoc where
  metadata : List (String × String)
  pages : List PdfPage
  deriving DecidableEq, Repr

/-! ### The Document record -/

/-- The mutable state of a `Document` instance. -/
structure Document where
  media_dir : List Char
  file_path : List Char
  file_name : List Char
  file_ext : List Char
  file_size : ℕ
  metadata : List (String × String)
  text_content : String
  tables : List String
  images : List (List Char)
  deriving DecidableEq, Repr

/-- Python `dict` insertion: overwrite in place if the key exists,
else append. -/
def dictInsert (m : List (String × String)) (kv : String × String) :
    List (String × String) :=
  if m.any (fun p => p.1 = kv.1) then
    m.map (fun p => if p.1 = kv.1 then (p.1, kv.2) else p)
  else m ++ [kv]

/-- Python `dict.update`. -/
def dictUpdate (m new : List (String × String)) : List (String × String) :=
  new.foldl dictInsert m

/-- The filesystem as seen by the constructor: byte size of an existing
path, `none` when the path does not exist. -/
def Fs : Type := List Char → Option ℕ

def defaultMediaDir : List Char := "media_for_processing".toList

/-- `Document.__init__` (lines 125–141): relocate paths that do not start
with the media dir, derive name / lowercased extension / on-disk size,
and start with empty content fields.  A total function: construction
never fails. -/
def Document.init (fs : Fs) (mediaDir path : List Char) : Document :=
  let fp := if mediaDir <+: path then path else joinPath mediaDir (basename path)
  let name := basename fp
  { media_dir := mediaDir
    file_path := fp
    file_name := name
    file_ext := lowerStr (splitextName name).2
    file_size := (fs fp).getD 0
    metadata := []
    text_content := ""
    tables := []
    images := [] }

/-! ### `_process_pdf` (lines 204–281)

The per-page loop is embedded as a fold over the page's blocks.  The
`print` statements of the source go to stdout and are not modelled.  The
f-string literals are reproduced verbatim. -/

def pageSeparator : String := "\n---\n"

def textPageHeader (pn : ℕ) : String :=
  "========[Страница " ++ toString (pn + 1) ++
    " обычный текст + встроенные растр-картинки]========\n"

def imgBlockHeader (c : ℕ) : String :=
  "========[Изображение " ++ toString c ++ "]========\n"

def placeholderText : String := "(описание пропущено — лимит Vision)"

def imgDescLine (c : ℕ) (desc : String) : String :=
  "[Изображение " ++ toString c ++ ": " ++ desc ++ "]"

def graphicsSection (pn : ℕ) (desc : String) : String :=
  "[========[Страница " ++ toString (pn + 1) ++ " с графикой]======== \n " ++
    desc ++ "]\n"

/-- Destination of the full-page raster of a graphics-bearing page. -/
def rasterPath (stem : List Char) (pn : ℕ) : List Char :=
  joinPath "images".toList
    (stem ++ "_page".toList ++ (toString (pn + 1)).toList ++ ".png".toList)

/-- Destination of an embedded image of a text-bearing page. -/
def blockImgPath (stem : List Char) (c : ℕ) (ext : List Char) : List Char :=
  joinPath "images".toList
    (stem ++ "_img".toList ++ (toString c).toList ++ '.' :: ext)

/-- The loop state of `_process_pdf`: `parts` and `images` persist across
pages, `visionCalls` and `imageCounter` are re-initialized per page,
`events` is the ghost trace of observable effects. -/
structure PageState where
  parts : List String
  images : List (List Char)
  visionCalls : ℕ
  imageCounter : ℕ
  events : List Event
  deriving DecidableEq, Repr

/-- One block of the text-bearing branch (lines 249–276).  For an image
block the header is appended before the area filter; below-threshold
images are then skipped by `continue`.  The `try` around save/describe is
rendered by the outcome flag: a failed save contributes nothing further,
a failed (but issued) description call leaves the image persisted and
listed but appends no text and advances no counter. -/
def processBlock (describe : List Char → String) (stem : List Char)
    (s : PageState) : Block → PageState
  | .text lines =>
    { s with parts :=
        s.parts ++ (lines.map (fun ln => ln.spans.map (fun sp => sp.text))).flatten }
  | .image w h ext outcome =>
    let s1 := { s with parts := s.parts ++ [imgBlockHeader s.imageCounter] }
    if w * h < MIN_IMG_PIXELS then s1
    else if outcome = ImgOutcome.failSave then s1
    else
      let p := blockImgPath stem s1.imageCounter ext
      let s2 := { s1 with
        images := s1.images ++ [p]
        events := s1.events ++ [Event.saveImage p w h] }
      if s2.visionCalls < MAX_VISION_CALLS_PER_PAGE then
        let s3 := { s2 with events := s2.events ++ [Event.visionCall p] }
        if outcome = ImgOutcome.failDescribe then s3
        else
          { s3 with
            visionCalls := s3.visionCalls + 1
            parts := s3.parts ++ [imgDescLine s3.imageCounter (describe p)]
            imageCounter := s3.imageCounter + 1 }
      else
        { s2 with
          parts := s2.parts ++ [imgDescLine s2.imageCounter placeholderText]
          imageCounter := s2.imageCounter + 1
          events := s2.events ++ [Event.placeholderUsed] }

/-- The graphics-bearing branch (lines 224–241).  Note that
`vision_calls` is never incremented here: the single raster description
call is quota-exempt. -/
def processGraphics (describe : List Char → String) (stem : List Char)
    (pn : ℕ) (outcome : RasterOutcome) (s : PageState) : PageState :=
  let p := rasterPath stem pn
  match outcome with
  | .failPixmap => s
  | .failSave => s
  | .failDescribe =>
    { s with
      images := s.images ++ [p]
      events := s.events ++ [Event.savePixmap p, Event.visionCall p] }
  | .ok =>
    { s with
      images := s.images ++ [p]
      events := s.events ++ [Event.savePixmap p, Event.visionCall p]
      parts := s.parts ++ [graphicsSection pn (describe p)] }

/-- Per-page re-initialization (lines 220–221). -/
def pageStart (s : PageState) : PageState :=
  { s with visionCalls := 0, imageCounter := 1 }

/-- One iteration of the page loop (lines 218–278), separator included. -/
def processPage (describe : List Char → String) (stem : List Char)
    (pn : ℕ) (pg : PdfPage) (s : PageState) : PageState :=
  let s0 := pageStart s
  let s1 :=
    if pg.hasDrawings then processGraphics describe stem pn pg.raster s0
    else
      pg.blocks.foldl (processBlock describe stem)
        { s0 with parts := s0.parts ++ [textPageHeader pn] }
  { s1 with parts := s1.parts ++ [pageSeparator] }

/-- The page loop itself, carrying the 0-based page number. -/
def processPages (describe : List Char → String) (stem : List Char) :
    ℕ → List PdfPage → PageState → PageState
  | _, [], s => s
  | pn, pg :: rest, s =>
    processPages describe stem (pn + 1) rest (processPage describe stem pn pg s)

/-- `Document._process_pdf`: merge container metadata, run the page loop,
overwrite `text_content` with the joined parts, extend `images`. -/
def Document.processPdf (describe : List Char → String) (pdf : PdfDoc)
    (d : Document) : Document × List Event :=
  let stem := (splitextName d.file_name).1
  let final := processPages describe stem 0 pdf.pages
    { parts := [], images := d.images, visionCalls := 0, imageCounter := 1,
      events := [] }
  ({ d with
      metadata := dictUpdate d.metadata pdf.metadata
      text_content := String.join final.parts
      images := final.images },
    final.events)

/-! ### Observation helpers for the theorems -/

/-- Number of real DescriptionService calls in a trace. -/
def callCount (es : List Event) : ℕ :=
  (es.filter fun e => match e with | .visionCall _ => true | _ => false).length

/-- Number of quota placeholders in a trace. -/
def placeholderCount (es : List Event) : ℕ :=
  (es.filter fun e => match e with | .placeholderUsed => true | _ => false).length

/-- An image block surviving the minimum-pixel-area filter. -/
def isEligibleImage : Block → Bool
  | .image w h _ _ => decide (MIN_IMG_PIXELS ≤ w * h)
  | _ => false

def eligibleCount (bs : List Block) : ℕ := (bs.filter isEligibleImage).length

/-- A block whose guarded operations all succeed (text blocks trivially). -/
def blockOk : Block → Bool
  | .image _ _ _ outcome => outcome = .ok
  | .text _ => true

/-! ### `_process_image` (lines 288–323)

A decoded raster image is reduced to what the claims observe: pixel
dimensions, the EXIF orientation tag (274; 0 encodes "absent"), and the
codec name.  EXIF metadata is reduced to the orientation tag. -/

structure RawImage where
  width : ℕ
  height : ℕ
  orientation : ℕ
  format : Option String
  deriving DecidableEq, Repr

/-- `ImageOps.exif_transpose`: orientations 2–8 are physically applied
(5/6/7/8 swap the two dimensions, 2/3/4 keep them), the orientation tag
is removed from the result, and the derived image loses its codec name
(Pillow's transposed copies have `format = None`); any other value leaves
the image as is. -/
def exifTranspose (img : RawImage) : RawImage :=
  if img.orientation ∈ [5, 6, 7, 8] then
    { width := img.height, height := img.width, orientation := 0, format := none }
  else if img.orientation ∈ [2, 3, 4] then
    { img with orientation := 0, format := none }
  else img

/-- Pillow's `round_aspect`:
`max(min(math.floor(number), math.ceil(number), key=key), 1)`, where
Python's binary `min` with a key returns the first argument on ties. -/
def roundAspect (q : ℚ) (key : ℤ → ℚ) : ℤ :=
  max (if key ⌊q⌋ ≤ key ⌈q⌉ then ⌊q⌋ else ⌈q⌉) 1

/-- Pillow's `Image.thumbnail((bw, bh))` size computation: no-op when the
image already fits the box, otherwise shrink to the box preserving the
aspect ratio up to the `round_aspect` rounding; the pixel data is then
resized to exactly this size. -/
def pilThumbnail (w h bw bh : ℕ) : ℕ × ℕ :=
  if bw ≥ w ∧ bh ≥ h then (w, h)
  else
    let aspect : ℚ := (w : ℚ) / (h : ℚ)
    if (bw : ℚ) / (bh : ℚ) ≥ aspect then
      ((roundAspect ((bh : ℚ) * aspect)
          (fun n => |aspect - (n : ℚ) / (bh : ℚ)|)).toNat, bh)
    else
      (bw, (roundAspect ((bw : ℚ) / aspect)
          (fun n => if n = 0 then 0 else |aspect - (bw : ℚ) / (n : ℚ)|)).toNat)

/-- Line 306: `"JPEG" if img.format and img.format.lower() in
{"tiff","tif"} else (img.format or "PNG")`. -/
def imageFmt (f : Option String) : String :=
  match f with
  | none => "PNG"
  | some f =>
    if f ≠ "" ∧ (f.toLower = "tiff" ∨ f.toLower = "tif") then "JPEG"
    else if f = "" then "PNG" else f

/-- External collaborators of the processor.  `describe` is
`_generate_image_description` and `convertToPdf` is `_convert_to_pdf`;
both are called by the processor but their bodies are not part of the
source module.

Modelled from the spec: per §6, DescriptionService returns a
natural-language description string and the caller translates any
transport failure into a placeholder rather than propagating it (hence a
total function); ConversionService maps an editable office document path
to the path of an equivalent fixed-layout document.  `pdfContent` and
`decodeImage` are the runtime facts `fitz.open` / `PIL.Image.open` find
at a path (decoding failure = `none`); `otherHandler` stands for the
remaining dispatch-table extractors, which are outside the claims. -/
structure Env where
  describe : List Char → String
  convertToPdf : List Char → List Char
  pdfContent : List Char → PdfDoc
  decodeImage : List Char → Option RawImage
  otherHandler : List Char → Document → Option ProcErr × Document × List Event

/-- `Document._process_image`: decode (or fail the whole unit), apply the
EXIF orientation when the tag is present and non-zero, downscale via
`thumbnail` when a dimension exceeds `MAX_IMAGE_DIM` or the byte size
exceeds `MAX_IMAGE_SIZE`, persist, record the path, merge EXIF metadata
(orientation normalized to identity), and describe the persisted file. -/
def Document.processImage (env : Env) (d : Document) :
    Option ProcErr × Document × List Event :=
  match env.decodeImage d.file_path with
  | none => (some ProcErr.unreadableImage, d, [])
  | some img0 =>
    let img1 := if img0.orientation ≠ 0 then exifTranspose img0 else img0
    let img2 :=
      if MAX_IMAGE_DIM < max img1.width img1.height ∨
          MAX_IMAGE_SIZE < d.file_size then
        let wh := pilThumbnail img1.width img1.height MAX_IMAGE_DIM MAX_IMAGE_DIM
        { img1 with width := wh.1, height := wh.2 }
      else img1
    let fmt := imageFmt img2.format
    let outPath := joinPath "images".toList
      ((splitextName d.file_name).1 ++ '.' :: lowerStr fmt.toList)
    let exifPairs : List (String × String) :=
      if img2.orientation ≠ 0 then [("Orientation", "1")] else []
    (none,
      { d with
          images := d.images ++ [outPath]
          metadata := dictUpdate d.metadata exifPairs
          text_content := env.describe outPath },
      [Event.saveImage outPath img2.width img2.height, Event.visionCall outPath])

/-- Dimensions of the first persisted image of a processing result. -/
def savedDims (r : Option ProcErr × Document × List Event) : Option (ℕ × ℕ) :=
  match r.2.2 with
  | Event.saveImage _ w h :: _ => some (w, h)
  | _ => none

/-! ### `Document.process` (lines 146–197): dispatch -/

def imageExts : List (List Char) :=
  [".jpg", ".jpeg", ".png", ".heic", ".heif", ".gif", ".tiff", ".tif",
    ".bmp"].map String.toList

def officeExts : List (List Char) :=
  [".docx", ".doc", ".pptx", ".ppt"].map String.toList

/-- The extensions of the `HANDLERS` dispatch table other than `.pdf`. -/
def otherHandlerExts : List (List Char) :=
  [".txt", ".pages", ".numbers", ".xlsx", ".xls", ".csv", ".json", ".py",
    ".html", ".cms", ".css", ".eml", ".mbox", ".rtf", ".md", ".markdown",
    ".odt", ".epub", ".zip", ".rar"].map String.toList

structure ProcResult where
  err : Option ProcErr
  doc : Document
  events : List Event
  deriving Repr

/-- `Document.process`: refuse `~$`-named temporary artifacts before
anything else (in particular before `_ensure_dirs`, the first filesystem
touch), then dispatch on the extension: raster images, office formats
(converted to PDF first, overwriting the identity fields), `.pdf`, the
rest of the handler table, or an unsupported-format error. -/
def Document.process (env : Env) (d : Document) : ProcResult :=
  if "~$".toList <+: d.file_name then
    { err := some ProcErr.temporaryArtifact, doc := d, events := [] }
  else
    let ev0 := [Event.ensureDirs]
    if d.file_ext ∈ imageExts then
      let r := Document.processImage env d
      { err := r.1, doc := r.2.1, events := ev0 ++ r.2.2 }
    else if d.file_ext ∈ officeExts then
      let pdfPath := env.convertToPdf d.file_path
      let d1 := { d with
        file_path := pdfPath
        file_name := basename pdfPath
        file_ext := ".pdf".toList }
      let r := Document.processPdf env.describe (env.pdfContent pdfPath) d1
      { err := none, doc := r.1, events := ev0 ++ r.2 }
    else if d.file_ext = ".pdf".toList then
      let r := Document.processPdf env.describe (env.pdfContent d.file_path) d
      { err := none, doc := r.1, events := ev0 ++ r.2 }
    else if d.file_ext ∈ otherHandlerExts then
      let r := env.otherHandler d.file_ext d
      { err := r.1, doc := r.2.1, events := ev0 ++ r.2.2 }
    else
      { err := some (ProcErr.unsupportedFormat d.file_ext), doc := d,
        events := ev0 }

/-! ### Auxiliary definitions for the theorems -/

/-- The page-loop state at the very start of `_process_pdf`. -/
def emptyState : PageState :=
  { parts := [], images := [], visionCalls := 0, imageCounter := 1, events := [] }

/-- What one page contributes on its own, starting from an empty state. -/
def pageLocal (describe : List Char → String) (stem : List Char) (pn : ℕ)
    (pg : PdfPage) : PageState :=
  processPage describe stem pn pg emptyState

/-- Graft a page-loop state onto previously accumulated `parts`, `images`
and `events` (`visionCalls` and `imageCounter` are page-scoped and come
from the second argument). -/
def withAcc (pre s : PageState) : PageState :=
  { parts := pre.parts ++ s.parts
    images := pre.images ++ s.images
    visionCalls := s.visionCalls
    imageCounter := s.imageCounter
    events := pre.events ++ s.events }

/-! ### Concrete sample data (used by witnesses and counterexamples) -/

def descZero : List Char → String := fun _ => "d"

def fsNone : Fs := fun _ => none

def env0 : Env :=
  { describe := descZero
    convertToPdf := fun _ => "media_for_processing/conv.pdf".toList
    pdfContent := fun _ => ⟨[], []⟩
    decodeImage := fun _ => none
    otherHandler := fun _ d => (none, d, []) }

def imgBig : RawImage := ⟨6000, 4000, 0, some "png"⟩

def envBig : Env := { env0 with decodeImage := fun _ => some imgBig }

def imgRot : RawImage := ⟨6000, 100, 6, some "png"⟩

def envRot : Env := { env0 with decodeImage := fun _ => some imgRot }

def docPlain : Document := Document.init fsNone defaultMediaDir "a.pdf".toList

def docImg : Document := Document.init fsNone defaultMediaDir "photo.png".toList

def docTmp : Document :=
  Document.init fsNone defaultMediaDir "~$report.docx".toList

def docOffice : Document := Document.init fsNone defaultMediaDir "deck.pptx".toList

def pageSmallImg : PdfPage := ⟨false, .ok, [Block.image 10 10 "png".toList .ok]⟩

def pageNoImg : PdfPage := ⟨false, .ok, []⟩

def pageTwoImgs : PdfPage :=
  ⟨false, .ok,
    [Block.image 300 300 "png".toList .ok, Block.image 10 10 "png".toList .ok,
      Block.image 640 480 "jpeg".toList .ok]⟩

def pageGfx : PdfPage := ⟨true, .ok, []⟩

def pdfSmall : PdfDoc := ⟨[], [pageSmallImg]⟩

def pdfNoImg : PdfDoc := ⟨[], [pageNoImg]⟩

/-! ## Theorems -/

/-! ### Generic counting lemmas -/

theorem callCount_append (a b : List Event) :
    callCount (a ++ b) = callCount a + callCount b := by
  simp [callCount, List.filter_append]

theorem placeholderCount_append (a b : List Event) :
    placeholderCount (a ++ b) = placeholderCount a + placeholderCount b := by
  simp [placeholderCount, List.filter_append]

/-! ### C4 — temporary artifacts are refused before anything else -/

/-- C4: a filename matching the office temporary-artifact pattern (a
`~$` prefix) makes `Document.process` raise the temporary-artifact error
immediately: the error is returned, the document record is exactly the
input one (so metadata, text_content, images and tables are still
empty when the document was freshly constructed), and the effect trace is
empty — in particular `_ensure_dirs`, the first filesystem touch, was
never reached. -/
theorem process_refuses_temporary_artifact (env : Env) (d : Document)
    (h : "~$".toList <+: d.file_name) :
    Document.process env d =
      { err := some ProcErr.temporaryArtifact, doc := d, events := [] } := by
  unfold Document.process
  rw [if_pos h]

theorem process_refuses_temporary_artifact_witness :
    Document.process env0 docTmp =
      { err := some ProcErr.temporaryArtifact, doc := docTmp, events := [] } :=
  process_refuses_temporary_artifact env0 docTmp (by decide)

/-! ### C8 — an undecodable image fails the whole unit, and only that -/

/-- C8: when the input routed to `_process_image` cannot be decoded the
whole unit fails with the unreadable-image error — the document record
is unchanged (no path appended to `images`, `text_content` still what it
was, i.e. empty for a fresh document) and the effect trace is empty (no
image persisted); and this is the only failing case of the image
extractor: whenever decoding succeeds, no error is raised. -/
theorem image_unreadable_fails_whole_unit (env : Env) (d : Document) :
    (env.decodeImage d.file_path = none →
      Document.processImage env d = (some ProcErr.unreadableImage, d, [])) ∧
    (∀ img, env.decodeImage d.file_path = some img →
      (Document.processImage env d).1 = none) := by
  constructor
  · intro h
    unfold Document.processImage
    rw [h]
  · intro img h
    unfold Document.processImage
    rw [h]

theorem image_unreadable_fails_whole_unit_witness :
    Document.processImage env0 docImg =
      (some ProcErr.unreadableImage, docImg, []) :=
  (image_unreadable_fails_whole_unit env0 docImg).1 rfl

/-! ### C3 — below-threshold images are skipped, but not quite silently -/

/-- C3 (counterexample to the claim as stated): a text-bearing page whose
single image block is below the minimum pixel area does NOT leave
`text_content` free of any trace of the image: the numbered image header
is appended before the area filter runs, so the produced text differs
from the text produced for the same page without that image block. -/
theorem pdf_small_image_leaves_trace_counterexample :
    (Document.processPdf descZero pdfSmall docPlain).1.text_content ≠
      (Document.processPdf descZero pdfNoImg docPlain).1.text_content := by
  decide

/-- C3 (amended): an image block below the minimum pixel area is not
saved (no save event), not appended to `images`, not described (no
vision-call event), counts nothing toward the quota (`visionCalls`
unchanged) and does not advance the image counter — but its numbered
header line IS appended to the page text, because the source appends the
header before checking the area. -/
theorem processBlock_image_small (describe : List Char → String)
    (stem : List Char) (s : PageState) (w h : ℕ) (ext : List Char)
    (outcome : ImgOutcome) (hsmall : w * h < MIN_IMG_PIXELS) :
    processBlock describe stem s (Block.image w h ext outcome) =
      { s with parts := s.parts ++ [imgBlockHeader s.imageCounter] } := by
  simp only [processBlock]
  rw [if_pos hsmall]

theorem pdf_small_image_skipped_except_header (describe : List Char → String)
    (stem : List Char) (s : PageState) (w h : ℕ) (ext : List Char)
    (outcome : ImgOutcome) (hsmall : w * h < MIN_IMG_PIXELS) :
    processBlock describe stem s (Block.image w h ext outcome) =
      { s with parts := s.parts ++ [imgBlockHeader s.imageCounter] } :=
  processBlock_image_small describe stem s w h ext outcome hsmall

theorem pdf_small_image_skipped_except_header_witness :
    processBlock descZero "a".toList emptyState
        (Block.image 10 10 "png".toList .ok) =
      { emptyState with
          parts := emptyState.parts ++ [imgBlockHeader emptyState.imageCounter] } :=
  pdf_small_image_skipped_except_header descZero "a".toList emptyState 10 10
    "png".toList .ok (by decide)

/-! ### C2 — graphics-bearing pages: one raster, one quota-exempt call -/

/-- C2: a page classified graphics-bearing (non-text drawing primitives
present) whose raster pipeline succeeds persists exactly one image (the
full-page raster), appends exactly its path to `images`, issues exactly
one DescriptionService call, and that call is quota-exempt: the page's
vision-call counter is still 0 afterwards. -/
theorem pdf_graphics_page_single_raster_call (describe : List Char → String)
    (stem : List Char) (pn : ℕ) (pg : PdfPage) (s : PageState)
    (hd : pg.hasDrawings = true) (hok : pg.raster = RasterOutcome.ok) :
    processPage describe stem pn pg s =
      { parts := s.parts ++
          [graphicsSection pn (describe (rasterPath stem pn)), pageSeparator]
        images := s.images ++ [rasterPath stem pn]
        visionCalls := 0
        imageCounter := 1
        events := s.events ++
          [Event.savePixmap (rasterPath stem pn),
            Event.visionCall (rasterPath stem pn)] } ∧
    callCount (processPage describe stem pn pg s).events =
      callCount s.events + 1 := by
  constructor
  · simp [processPage, hd, hok, processGraphics, pageStart]
  · simp [processPage, hd, hok, processGraphics, pageStart, callCount_append,
      callCount]

theorem pdf_graphics_page_single_raster_call_witness :
    callCount (processPage descZero "a".toList 0 pageGfx emptyState).events =
      callCount emptyState.events + 1 :=
  (pdf_graphics_page_single_raster_call descZero "a".toList 0 pageGfx
    emptyState rfl rfl).2

/-! ### Per-branch equations for `processBlock` -/

theorem processBlock_text (describe : List Char → String) (stem : List Char)
    (s : PageState) (lines : List TextLine) :
    processBlock describe stem s (Block.text lines) =
      { s with parts := s.parts ++
          (lines.map (fun ln => ln.spans.map (fun sp => sp.text))).flatten } :=
  rfl

theorem processBlock_image_call (describe : List Char → String)
    (stem : List Char) (s : PageState) (w h : ℕ) (ext : List Char)
    (hbig : ¬ w * h < MIN_IMG_PIXELS)
    (hlt : s.visionCalls < MAX_VISION_CALLS_PER_PAGE) :
    processBlock describe stem s (Block.image w h ext .ok) =
      { parts := s.parts ++ [imgBlockHeader s.imageCounter,
          imgDescLine s.imageCounter
            (describe (blockImgPath stem s.imageCounter ext))]
        images := s.images ++ [blockImgPath stem s.imageCounter ext]
        visionCalls := s.visionCalls + 1
        imageCounter := s.imageCounter + 1
        events := s.events ++
          [Event.saveImage (blockImgPath stem s.imageCounter ext) w h,
            Event.visionCall (blockImgPath stem s.imageCounter ext)] } := by
  simp [processBlock, hbig, hlt]

theorem processBlock_image_quota (describe : List Char → String)
    (stem : List Char) (s : PageState) (w h : ℕ) (ext : List Char)
    (hbig : ¬ w * h < MIN_IMG_PIXELS)
    (hge : ¬ s.visionCalls < MAX_VISION_CALLS_PER_PAGE) :
    processBlock describe stem s (Block.image w h ext .ok) =
      { parts := s.parts ++ [imgBlockHeader s.imageCounter,
          imgDescLine s.imageCounter placeholderText]
        images := s.images ++ [blockImgPath stem s.imageCounter ext]
        visionCalls := s.visionCalls
        imageCounter := s.imageCounter + 1
        events := s.events ++
          [Event.saveImage (blockImgPath stem s.imageCounter ext) w h,
            Event.placeholderUsed] } := by
  simp [processBlock, hbig, hge]

theorem eligibleCount_cons_text (lines : List TextLine) (bs : List Block) :
    eligibleCount (Block.text lines :: bs) = eligibleCount bs := by
  simp [eligibleCount, isEligibleImage]

theorem eligibleCount_cons_small (w h : ℕ) (ext : List Char) (o : ImgOutcome)
    (bs : List Block) (hsmall : w * h < MIN_IMG_PIXELS) :
    eligibleCount (Block.image w h ext o :: bs) = eligibleCount bs := by
  simp [eligibleCount, isEligibleImage, Nat.not_le.mpr hsmall]

theorem eligibleCount_cons_big (w h : ℕ) (ext : List Char) (o : ImgOutcome)
    (bs : List Block) (hbig : ¬ w * h < MIN_IMG_PIXELS) :
    eligibleCount (Block.image w h ext o :: bs) = eligibleCount bs + 1 := by
  simp [eligibleCount, isEligibleImage, Nat.not_lt.mp hbig, Nat.add_comm]

/-! ### The per-page quota invariant -/

theorem processBlock_vision_le (describe : List Char → String)
    (stem : List Char) (s : PageState) (b : Block)
    (hv : s.visionCalls ≤ MAX_VISION_CALLS_PER_PAGE) :
    (processBlock describe stem s b).visionCalls ≤
      MAX_VISION_CALLS_PER_PAGE := by
  cases b with
  | text lines => simpa [processBlock] using hv
  | image w h ext o =>
    simp only [processBlock]
    split_ifs with h1 h2 h3 h4 <;> simp <;> omega

theorem foldBlocks_vision_le (describe : List Char → String) (stem : List Char)
    (bs : List Block) : ∀ s : PageState,
    s.visionCalls ≤ MAX_VISION_CALLS_PER_PAGE →
    (bs.foldl (processBlock describe stem) s).visionCalls ≤
      MAX_VISION_CALLS_PER_PAGE := by
  induction bs with
  | nil => intro s hv; simpa using hv
  | cons b rest ih =>
    intro s hv
    simp only [List.foldl_cons]
    exact ih _ (processBlock_vision_le describe stem s b hv)

/-! ### Exact call counting on an all-successful text-bearing page -/

theorem foldBlocks_ok_counts (describe : List Char → String) (stem : List Char)
    (bs : List Block) : ∀ s : PageState,
    (∀ b ∈ bs, blockOk b = true) →
    s.visionCalls ≤ MAX_VISION_CALLS_PER_PAGE →
    (bs.foldl (processBlock describe stem) s).visionCalls =
        s.visionCalls + min (eligibleCount bs)
          (MAX_VISION_CALLS_PER_PAGE - s.visionCalls) ∧
    callCount (bs.foldl (processBlock describe stem) s).events =
        callCount s.events + min (eligibleCount bs)
          (MAX_VISION_CALLS_PER_PAGE - s.visionCalls) ∧
    placeholderCount (bs.foldl (processBlock describe stem) s).events =
        placeholderCount s.events + (eligibleCount bs -
          (MAX_VISION_CALLS_PER_PAGE - s.visionCalls)) := by
  induction bs with
  | nil => intro s hok hv; simp [eligibleCount]
  | cons b rest ih =>
    intro s hok hv
    have hrest : ∀ x ∈ rest, blockOk x = true := fun x hx => hok x (by simp [hx])
    simp only [List.foldl_cons]
    cases b with
    | text lines =>
      rw [processBlock_text, eligibleCount_cons_text]
      exact ih _ hrest hv
    | image w h ext o =>
      have ho : o = ImgOutcome.ok := by
        have := hok _ (List.mem_cons_self _ _)
        cases o <;> simp_all [blockOk]
      subst ho
      by_cases hsmall : w * h < MIN_IMG_PIXELS
      · rw [processBlock_image_small describe stem s w h ext _ hsmall,
          eligibleCount_cons_small w h ext _ rest hsmall]
        exact ih _ hrest hv
      · by_cases hlt : s.visionCalls < MAX_VISION_CALLS_PER_PAGE
        · rw [processBlock_image_call describe stem s w h ext hsmall hlt,
            eligibleCount_cons_big w h ext _ rest hsmall]
          have hih := ih
            { parts := s.parts ++ [imgBlockHeader s.imageCounter,
                imgDescLine s.imageCounter
                  (describe (blockImgPath stem s.imageCounter ext))]
              images := s.images ++ [blockImgPath stem s.imageCounter ext]
              visionCalls := s.visionCalls + 1
              imageCounter := s.imageCounter + 1
              events := s.events ++
                [Event.saveImage (blockImgPath stem s.imageCounter ext) w h,
                  Event.visionCall (blockImgPath stem s.imageCounter ext)] }
            hrest (by simpa using hlt)
          simp only [callCount_append, placeholderCount_append] at hih
          have hc1 : callCount
              [Event.saveImage (blockImgPath stem s.imageCounter ext) w h,
                Event.visionCall (blockImgPath stem s.imageCounter ext)] = 1 := by
            simp [callCount]
          have hc2 : placeholderCount
              [Event.saveImage (blockImgPath stem s.imageCounter ext) w h,
                Event.visionCall (blockImgPath stem s.imageCounter ext)] = 0 := by
            simp [placeholderCount]
          rw [hc1, hc2] at hih
          refine ⟨?_, ?_, ?_⟩
          · rw [hih.1]; omega
          · rw [hih.2.1]; omega
          · rw [hih.2.2]; omega
        · rw [processBlock_image_quota describe stem s w h ext hsmall hlt,
            eligibleCount_cons_big w h ext _ rest hsmall]
          have hih := ih
            { parts := s.parts ++ [imgBlockHeader s.imageCounter,
                imgDescLine s.imageCounter placeholderText]
              images := s.images ++ [blockImgPath stem s.imageCounter ext]
              visionCalls := s.visionCalls
              imageCounter := s.imageCounter + 1
              events := s.events ++
                [Event.saveImage (blockImgPath stem s.imageCounter ext) w h,
                  Event.placeholderUsed] }
            hrest (by simpa using hv)
          simp only [callCount_append, placeholderCount_append] at hih
          have hc1 : callCount
              [Event.saveImage (blockImgPath stem s.imageCounter ext) w h,
                Event.placeholderUsed] = 0 := by
            simp [callCount]
          have hc2 : placeholderCount
              [Event.saveImage (blockImgPath stem s.imageCounter ext) w h,
                Event.placeholderUsed] = 1 := by
            simp [placeholderCount]
          rw [hc1, hc2] at hih
          refine ⟨?_, ?_, ?_⟩
          · rw [hih.1]; omega
          · rw [hih.2.1]; omega
          · rw [hih.2.2]; omega

/-! ### C1 — text-bearing pages: bounded number of real description calls -/

/-- C1: on a text-bearing page all of whose guarded operations succeed,
the number of real DescriptionService calls issued equals
`min (eligible images after the area filter) MAX_VISION_CALLS_PER_PAGE`;
every eligible image beyond that bound produces the fixed quota
placeholder instead of a second real call (one placeholder event per
excess image); and the per-page call counter never exceeds
`MAX_VISION_CALLS_PER_PAGE` at any prefix of the page's block list. -/
theorem pdf_text_page_call_quota (describe : List Char → String)
    (stem : List Char) (pn : ℕ) (pg : PdfPage) (s : PageState)
    (hd : pg.hasDrawings = false)
    (hok : ∀ b ∈ pg.blocks, blockOk b = true) :
    callCount (processPage describe stem pn pg s).events =
        callCount s.events +
          min (eligibleCount pg.blocks) MAX_VISION_CALLS_PER_PAGE ∧
    placeholderCount (processPage describe stem pn pg s).events =
        placeholderCount s.events +
          (eligibleCount pg.blocks - MAX_VISION_CALLS_PER_PAGE) ∧
    (∀ bs₁ bs₂, pg.blocks = bs₁ ++ bs₂ →
      (bs₁.foldl (processBlock describe stem)
          { pageStart s with
              parts := (pageStart s).parts ++ [textPageHeader pn] }).visionCalls ≤
        MAX_VISION_CALLS_PER_PAGE) := by
  have h0 := foldBlocks_ok_counts describe stem pg.blocks
    { pageStart s with parts := (pageStart s).parts ++ [textPageHeader pn] }
    hok (by simp [pageStart])
  simp only [pageStart] at h0
  refine ⟨?_, ?_, ?_⟩
  · have := h0.2.1
    simp only [processPage, hd, Bool.false_eq_true, if_false, pageStart]
    simpa using this
  · have := h0.2.2
    simp only [processPage, hd, Bool.false_eq_true, if_false, pageStart]
    simpa using this
  · intro bs₁ bs₂ _
    exact foldBlocks_vision_le describe stem bs₁ _ (by simp [pageStart])

theorem pdf_text_page_call_quota_witness :
    callCount (processPage descZero "a".toList 0 pageTwoImgs emptyState).events =
      callCount emptyState.events +
        min (eligibleCount pageTwoImgs.blocks) MAX_VISION_CALLS_PER_PAGE :=
  (pdf_text_page_call_quota descZero "a".toList 0 pageTwoImgs emptyState rfl
    (by decide)).1

/-! ### Page-locality machinery (for C5 and C10) -/

theorem processBlock_withAcc (describe : List Char → String) (stem : List Char)
    (pre s : PageState) (b : Block) :
    processBlock describe stem (withAcc pre s) b =
      withAcc pre (processBlock describe stem s b) := by
  cases b with
  | text lines => simp [processBlock, withAcc, List.append_assoc]
  | image w h ext o =>
    simp only [processBlock, withAcc]
    split_ifs <;> simp [List.append_assoc]

theorem foldBlocks_withAcc (describe : List Char → String) (stem : List Char)
    (bs : List Block) : ∀ pre s : PageState,
    bs.foldl (processBlock describe stem) (withAcc pre s) =
      withAcc pre (bs.foldl (processBlock describe stem) s) := by
  induction bs with
  | nil => intro pre s; simp
  | cons b rest ih =>
    intro pre s
    simp only [List.foldl_cons, processBlock_withAcc]
    exact ih pre _

theorem processGraphics_withAcc (describe : List Char → String)
    (stem : List Char) (pn : ℕ) (outcome : RasterOutcome)
    (pre s : PageState) :
    processGraphics describe stem pn outcome (withAcc pre s) =
      withAcc pre (processGraphics describe stem pn outcome s) := by
  cases outcome <;> simp [processGraphics, withAcc, List.append_assoc]

theorem pageStart_withAcc (pre s : PageState) :
    pageStart (withAcc pre s) = withAcc pre (pageStart s) := rfl

theorem processPage_withAcc (describe : List Char → String) (stem : List Char)
    (pn : ℕ) (pg : PdfPage) (pre s : PageState) :
    processPage describe stem pn pg (withAcc pre s) =
      withAcc pre (processPage describe stem pn pg s) := by
  simp only [processPage, pageStart_withAcc]
  cases hd : pg.hasDrawings with
  | true =>
    simp only [if_true]
    rw [processGraphics_withAcc]
    simp [withAcc, List.append_assoc]
  | false =>
    simp only [Bool.false_eq_true, if_false]
    have hinit : ({ withAcc pre (pageStart s) with
        parts := (withAcc pre (pageStart s)).parts ++ [textPageHeader pn] } :
          PageState) =
        withAcc pre { pageStart s with
          parts := (pageStart s).parts ++ [textPageHeader pn] } := by
      simp [withAcc, List.append_assoc]
    rw [hinit, foldBlocks_withAcc]
    simp [withAcc, List.append_assoc]

theorem withAcc_emptyState (s : PageState) :
    withAcc { parts := s.parts, images := s.images, visionCalls := 0,
              imageCounter := 1, events := s.events } emptyState =
      pageStart s := by
  simp [withAcc, emptyState, pageStart]

theorem processPage_pageStart (describe : List Char → String)
    (stem : List Char) (pn : ℕ) (pg : PdfPage) (s : PageState) :
    processPage describe stem pn pg (pageStart s) =
      processPage describe stem pn pg s := by
  simp only [processPage]
  rw [show pageStart (pageStart s) = pageStart s from rfl]

/-- Internal locality lemma: what a page adds to the loop state is the
page's own contribution computed from an empty state; the incoming
`parts`, `images` and `events` accumulators are only extended. -/
theorem processPage_eq_withAcc (describe : List Char → String)
    (stem : List Char) (pn : ℕ) (pg : PdfPage) (s : PageState) :
    processPage describe stem pn pg s =
      withAcc { parts := s.parts, images := s.images, visionCalls := 0,
                imageCounter := 1, events := s.events }
        (pageLocal describe stem pn pg) := by
  rw [← processPage_pageStart, ← withAcc_emptyState, processPage_withAcc]
  rfl

/-- Internal factorization: the whole page loop is the pointwise
concatenation of the per-page contributions. -/
theorem processPages_factor (describe : List Char → String) (stem : List Char)
    (pages : List PdfPage) : ∀ (pn : ℕ) (s : PageState),
    (processPages describe stem pn pages s).parts =
        s.parts ++ ((List.enumFrom pn pages).map
          (fun q => (pageLocal describe stem q.1 q.2).parts)).flatten ∧
    (processPages describe stem pn pages s).images =
        s.images ++ ((List.enumFrom pn pages).map
          (fun q => (pageLocal describe stem q.1 q.2).images)).flatten ∧
    (processPages describe stem pn pages s).events =
        s.events ++ ((List.enumFrom pn pages).map
          (fun q => (pageLocal describe stem q.1 q.2).events)).flatten := by
  induction pages with
  | nil => intro pn s; simp [processPages]
  | cons pg rest ih =>
    intro pn s
    simp only [processPages, List.enumFrom, List.map_cons, List.flatten_cons]
    have h1 := ih (pn + 1)
      (withAcc { parts := s.parts, images := s.images, visionCalls := 0,
                 imageCounter := 1, events := s.events }
        (pageLocal describe stem pn pg))
    rw [processPage_eq_withAcc]
    refine ⟨?_, ?_, ?_⟩
    · rw [h1.1]; simp [withAcc, List.append_assoc]
    · rw [h1.2.1]; simp [withAcc, List.append_assoc]
    · rw [h1.2.2]; simp [withAcc, List.append_assoc]

/-- Internal: every page's own contribution ends with the separator. -/
theorem pageLocal_parts_getLast (describe : List Char → String)
    (stem : List Char) (pn : ℕ) (pg : PdfPage) :
    ((pageLocal describe stem pn pg).parts).getLast? = some pageSeparator := by
  simp only [pageLocal, processPage]
  exact List.getLast?_concat _

/-- Internal: all projections of `_process_pdf` at once — identity fields
untouched, metadata merged once from the container, text/images/events
are the concatenation of independent per-page contributions. -/
theorem processPdf_proj (describe : List Char → String) (pdf : PdfDoc)
    (d : Document) :
    (Document.processPdf describe pdf d).1.text_content =
        String.join (((List.enumFrom 0 pdf.pages).map
          (fun q => (pageLocal describe (splitextName d.file_name).1
            q.1 q.2).parts)).flatten) ∧
    (Document.processPdf describe pdf d).1.images =
        d.images ++ ((List.enumFrom 0 pdf.pages).map
          (fun q => (pageLocal describe (splitextName d.file_name).1
            q.1 q.2).images)).flatten ∧
    (Document.processPdf describe pdf d).2 =
        ((List.enumFrom 0 pdf.pages).map
          (fun q => (pageLocal describe (splitextName d.file_name).1
            q.1 q.2).events)).flatten ∧
    (Document.processPdf describe pdf d).1.metadata =
        dictUpdate d.metadata pdf.metadata ∧
    (Document.processPdf describe pdf d).1.file_path = d.file_path ∧
    (Document.processPdf describe pdf d).1.file_name = d.file_name ∧
    (Document.processPdf describe pdf d).1.file_ext = d.file_ext ∧
    (Document.processPdf describe pdf d).1.file_size = d.file_size ∧
    (Document.processPdf describe pdf d).1.tables = d.tables := by
  have h := processPages_factor describe (splitextName d.file_name).1 pdf.pages 0
    { parts := [], images := d.images, visionCalls := 0, imageCounter := 1,
      events := [] }
  refine ⟨?_, ?_, ?_, rfl, rfl, rfl, rfl, rfl, rfl⟩
  · simp only [Document.processPdf]
    rw [h.1]; simp
  · simp only [Document.processPdf]
    rw [h.2.1]
  · simp only [Document.processPdf]
    rw [h.2.2]; simp

/-! ### C5 — page-level failures are contained -/

/-- C5: the outcome of `_process_pdf` factors page by page: each page
(identified by its index) contributes a text segment, an image-path
segment and an event segment computed from that page ALONE
(`pageLocal`), and the document output is their in-order concatenation.
Since a page's caught extraction failures (raster / save / describe
outcome flags) are part of that page's data only, a failure on one page
cannot change any other page's contribution, and processing always runs
to completion; moreover every page's text segment still ends with the
page separator, whatever its outcome flags were. -/
theorem pdf_page_failures_isolated (describe : List Char → String)
    (pdf : PdfDoc) (d : Document) :
    (Document.processPdf describe pdf d).1.text_content =
        String.join (((List.enumFrom 0 pdf.pages).map
          (fun q => (pageLocal describe (splitextName d.file_name).1
            q.1 q.2).parts)).flatten) ∧
    (Document.processPdf describe pdf d).1.images =
        d.images ++ ((List.enumFrom 0 pdf.pages).map
          (fun q => (pageLocal describe (splitextName d.file_name).1
            q.1 q.2).images)).flatten ∧
    (Document.processPdf describe pdf d).2 =
        ((List.enumFrom 0 pdf.pages).map
          (fun q => (pageLocal describe (splitextName d.file_name).1
            q.1 q.2).events)).flatten ∧
    ∀ (pn : ℕ) (pg : PdfPage),
      ((pageLocal describe (splitextName d.file_name).1 pn pg).parts).getLast?
        = some pageSeparator := by
  have h := processPdf_proj describe pdf d
  exact ⟨h.1, h.2.1, h.2.2.1,
    fun pn pg => pageLocal_parts_getLast describe _ pn pg⟩

/-! ### C9 — constructor normalization (corrected) -/

/-- Internal: a basename never contains (and so never starts with) a
path separator. -/
theorem basename_head_ne_slash (p : List Char) :
    (basename p).head? ≠ some '/' := by
  intro h
  have hmem : '/' ∈ basename p := by
    cases hb : basename p with
    | nil => simp [hb] at h
    | cons a t =>
      rw [hb] at h
      simp only [List.head?_cons, Option.some.injEq] at h
      subst h
      exact List.mem_cons_self _ _
  unfold basename at hmem
  rw [List.mem_reverse] at hmem
  have := List.mem_takeWhile_imp hmem
  simp at this

/-- C9 (counterexample to the claim as stated): the relocation test is a
plain string-prefix check, so a path in a SIBLING directory whose name
merely extends the media directory's name is kept unchanged — after
construction it does not lie inside the media directory. -/
theorem init_relocation_counterexample :
    (Document.init fsNone defaultMediaDir
        "media_for_processingX/a.pdf".toList).file_path =
      "media_for_processingX/a.pdf".toList ∧
    ¬ ((defaultMediaDir ++ ['/']) <+:
        (Document.init fsNone defaultMediaDir
          "media_for_processingX/a.pdf".toList).file_path) := by
  exact ⟨by decide, by decide⟩

/-- C9 (amended): construction is total and, for every input path,
relocates a path that does not START WITH the media-dir string to
`media_dir/basename(path)` and keeps other paths unchanged; it derives
`file_name` as the basename of the final path, lowercases the extension,
records the on-disk byte size (0 when the file does not exist), and
initializes metadata, text, tables and images empty.  Consequently
`file_path` always starts with the media-dir STRING — but (see the
counterexample) this is weaker than lying inside the media directory. -/
theorem init_normalizes_fields (fs : Fs) (path : List Char) :
    defaultMediaDir <+: (Document.init fs defaultMediaDir path).file_path ∧
    (defaultMediaDir <+: path →
      (Document.init fs defaultMediaDir path).file_path = path) ∧
    (¬ defaultMediaDir <+: path →
      (Document.init fs defaultMediaDir path).file_path =
        joinPath defaultMediaDir (basename path)) ∧
    (Document.init fs defaultMediaDir path).file_name =
      basename (Document.init fs defaultMediaDir path).file_path ∧
    (Document.init fs defaultMediaDir path).file_ext =
      lowerStr (splitextName
        (Document.init fs defaultMediaDir path).file_name).2 ∧
    (Document.init fs defaultMediaDir path).file_size =
      (fs (Document.init fs defaultMediaDir path).file_path).getD 0 ∧
    (Document.init fs defaultMediaDir path).metadata = [] ∧
    (Document.init fs defaultMediaDir path).text_content = "" ∧
    (Document.init fs defaultMediaDir path).tables = [] ∧
    (Document.init fs defaultMediaDir path).images = [] := by
  refine ⟨?_, ?_, ?_, rfl, rfl, rfl, rfl, rfl, rfl, rfl⟩
  · by_cases hp : defaultMediaDir <+: path
    · simp [Document.init, hp]
    · simp only [Document.init, hp, if_false]
      rw [joinPath, if_neg (basename_head_ne_slash path), if_neg (by decide)]
      exact ⟨'/' :: basename path, rfl⟩
  · intro hp; simp [Document.init, hp]
  · intro hp; simp [Document.init, hp]

theorem init_normalizes_fields_witness :
    (Document.init fsNone defaultMediaDir "/tmp/a.PDF".toList).file_path =
        joinPath defaultMediaDir (basename "/tmp/a.PDF".toList) ∧
    defaultMediaDir <+:
      (Document.init fsNone defaultMediaDir "/tmp/a.PDF".toList).file_path :=
  ⟨(init_normalizes_fields fsNone "/tmp/a.PDF".toList).2.2.1 (by decide),
    (init_normalizes_fields fsNone "/tmp/a.PDF".toList).1⟩

/-! ### C10 — office inputs: identity fields overwritten by conversion -/

/-- C10: for an input with an editable office extension (and a
non-temporary name), `process` overwrites the Document's identity fields
before extraction: afterwards `file_path` is the converted PDF's path,
`file_name` its basename and `file_ext` is `".pdf"` (the original path
and extension are no longer stored anywhere in the record), while
metadata, text_content and images are exactly what the subsequent PDF
extraction of the CONVERTED file produces from the empty fields, and
tables stay empty. -/
theorem process_office_overwrites_identity (env : Env) (d : Document)
    (hn : ¬ ("~$".toList <+: d.file_name))
    (he : d.file_ext ∈ officeExts)
    (hm : d.metadata = []) (ht : d.tables = []) (hi : d.images = []) :
    (Document.process env d).err = none ∧
    (Document.process env d).doc.file_path = env.convertToPdf d.file_path ∧
    (Document.process env d).doc.file_name =
      basename (env.convertToPdf d.file_path) ∧
    (Document.process env d).doc.file_ext = ".pdf".toList ∧
    (Document.process env d).doc.tables = [] ∧
    (Document.process env d).doc.metadata =
      dictUpdate []
        (env.pdfContent (env.convertToPdf d.file_path)).metadata ∧
    (Document.process env d).doc.text_content =
      String.join (((List.enumFrom 0
          (env.pdfContent (env.convertToPdf d.file_path)).pages).map
        (fun q => (pageLocal env.describe
          (splitextName (basename (env.convertToPdf d.file_path))).1
          q.1 q.2).parts)).flatten) ∧
    (Document.process env d).doc.images =
      ((List.enumFrom 0
          (env.pdfContent (env.convertToPdf d.file_path)).pages).map
        (fun q => (pageLocal env.describe
          (splitextName (basename (env.convertToPdf d.file_path))).1
          q.1 q.2).images)).flatten := by
  obtain ⟨md, fp, fn, fe, fsz, mta, tc, tb, im⟩ := d
  simp only at hn he hm ht hi ⊢
  subst hm
  subst ht
  subst hi
  have himg : fe ∉ imageExts := by
    have he2 : fe = ".docx".toList ∨ fe = ".doc".toList ∨
        fe = ".pptx".toList ∨ fe = ".ppt".toList := by
      simpa [officeExts] using he
    rcases he2 with h | h | h | h <;> rw [h] <;> decide
  have hproj := processPdf_proj env.describe
    (env.pdfContent (env.convertToPdf fp))
    ⟨md, env.convertToPdf fp, basename (env.convertToPdf fp), ".pdf".toList,
      fsz, [], tc, [], []⟩
  simp only [Document.process, hn, himg, he, if_true, if_false, ite_true,
    ite_false]
  exact ⟨trivial, hproj.2.2.2.2.1, hproj.2.2.2.2.2.1, hproj.2.2.2.2.2.2.1,
    hproj.2.2.2.2.2.2.2.2, hproj.2.2.2.1, hproj.1,
    by rw [hproj.2.1]; simp⟩

theorem process_office_overwrites_identity_witness :
    (Document.process env0 docOffice).doc.file_ext = ".pdf".toList :=
  (process_office_overwrites_identity env0 docOffice (by decide) (by decide)
    rfl rfl rfl).2.2.2.1

/-! ### Arithmetic of Pillow's `thumbnail` rounding (for C6) -/

theorem roundAspect_ge_one (q : ℚ) (key : ℤ → ℚ) : 1 ≤ roundAspect q key :=
  le_max_right _ _

theorem roundAspect_le (q : ℚ) (key : ℤ → ℚ) (B : ℤ) (hB : 1 ≤ B)
    (hq : q ≤ (B : ℚ)) : roundAspect q key ≤ B := by
  have hf : ⌊q⌋ ≤ B := by
    have := Int.floor_le_floor hq
    simpa using this
  have hc : ⌈q⌉ ≤ B := Int.ceil_le.mpr hq
  unfold roundAspect
  split_ifs <;> omega

theorem roundAspect_near (q : ℚ) (key : ℤ → ℚ) (hq : 0 < q) :
    q - 1 < (roundAspect q key : ℚ) ∧ (roundAspect q key : ℚ) < q + 1 := by
  have h1 : q - 1 < (⌊q⌋ : ℚ) := Int.sub_one_lt_floor q
  have h2 : (⌊q⌋ : ℚ) ≤ q := Int.floor_le q
  have h3 : q ≤ (⌈q⌉ : ℚ) := Int.le_ceil q
  have h4 : (⌈q⌉ : ℚ) < q + 1 := Int.ceil_lt_add_one q
  have h5 : 0 ≤ ⌊q⌋ := Int.floor_nonneg.mpr hq.le
  have h6 : 0 < ⌈q⌉ := Int.ceil_pos.mpr hq
  unfold roundAspect
  split_ifs with hkey
  · rcases max_cases ⌊q⌋ 1 with ⟨he, _⟩ | ⟨he, hlt⟩ <;> rw [he]
    · exact ⟨h1, lt_of_le_of_lt h2 (by linarith)⟩
    · have hf0 : ⌊q⌋ = 0 := by omega
      have : q < 1 := by
        have := Int.lt_floor_add_one q
        rw [hf0] at this
        simpa using this
      norm_num
      constructor <;> linarith
  · rcases max_cases ⌈q⌉ 1 with ⟨he, _⟩ | ⟨he, hlt⟩ <;> rw [he]
    · exact ⟨by linarith, h4⟩
    · omega

/-- Kernel fact about one shrink branch of `thumbnail` with a square box
`B`: for a long side `L > B` and a short side `S ≤ L`, the rounded short
result `r` never exceeds `S` (no upscaling) nor `B`, and satisfies
`r * L ≈ B * S` within one rounding unit of `L` — approximate aspect
preservation. -/
theorem roundAspect_shrink (B S L : ℕ) (key : ℤ → ℚ) (hB : 1 ≤ B)
    (hS : 1 ≤ S) (hL : B < L) (hSL : S ≤ L) :
    (roundAspect ((B : ℚ) * S / L) key).toNat ≤ S ∧
    (roundAspect ((B : ℚ) * S / L) key).toNat ≤ B ∧
    (roundAspect ((B : ℚ) * S / L) key).toNat * L < B * S + L ∧
    B * S < (roundAspect ((B : ℚ) * S / L) key).toNat * L + L := by
  have hLpos : (0 : ℚ) < L := by
    have hx : 0 < L := by omega
    exact_mod_cast hx
  have hB0 : (0 : ℚ) < B := by exact_mod_cast hB
  have hS0 : (0 : ℚ) < S := by exact_mod_cast hS
  have hq_pos : (0 : ℚ) < (B : ℚ) * S / L := div_pos (mul_pos hB0 hS0) hLpos
  have hq_le_S : (B : ℚ) * S / L ≤ (S : ℚ) := by
    rw [div_le_iff₀ hLpos]
    have : (B : ℚ) ≤ L := by exact_mod_cast hL.le
    calc (B : ℚ) * S = (S : ℚ) * B := by ring
      _ ≤ (S : ℚ) * L := by exact mul_le_mul_of_nonneg_left this hS0.le
  have hq_le_B : (B : ℚ) * S / L ≤ (B : ℚ) := by
    rw [div_le_iff₀ hLpos]
    have : (S : ℚ) ≤ L := by exact_mod_cast hSL
    exact mul_le_mul_of_nonneg_left this hB0.le
  have hr1 : 1 ≤ roundAspect ((B : ℚ) * S / L) key := roundAspect_ge_one _ _
  have hrS : roundAspect ((B : ℚ) * S / L) key ≤ (S : ℤ) :=
    roundAspect_le _ _ _ (by exact_mod_cast hS) (by exact_mod_cast hq_le_S)
  have hrB : roundAspect ((B : ℚ) * S / L) key ≤ (B : ℤ) :=
    roundAspect_le _ _ _ (by exact_mod_cast hB) (by exact_mod_cast hq_le_B)
  have hnear := roundAspect_near ((B : ℚ) * S / L) key hq_pos
  have hmul : ((B : ℚ) * S / L) * L = (B : ℚ) * S := by
    field_simp
  have hlt1 : ((roundAspect ((B : ℚ) * S / L) key : ℚ)) * L <
      (B : ℚ) * S + L := by
    have := hnear.2
    calc ((roundAspect ((B : ℚ) * S / L) key : ℚ)) * L
        < ((B : ℚ) * S / L + 1) * L := by
          exact mul_lt_mul_of_pos_right this hLpos
      _ = (B : ℚ) * S + L := by rw [add_mul, hmul, one_mul]
  have hlt2 : (B : ℚ) * S <
      ((roundAspect ((B : ℚ) * S / L) key : ℚ)) * L + L := by
    have := hnear.1
    have h' : ((B : ℚ) * S / L - 1) * L <
        ((roundAspect ((B : ℚ) * S / L) key : ℚ)) * L :=
      mul_lt_mul_of_pos_right this hLpos
    rw [sub_mul, hmul, one_mul] at h'
    linarith
  have htn : ((roundAspect ((B : ℚ) * S / L) key).toNat : ℤ) =
      roundAspect ((B : ℚ) * S / L) key := Int.toNat_of_nonneg (by omega)
  have hz1 : roundAspect ((B : ℚ) * S / L) key * (L : ℤ) <
      (B : ℤ) * S + L := by exact_mod_cast hlt1
  have hz2 : (B : ℤ) * S <
      roundAspect ((B : ℚ) * S / L) key * (L : ℤ) + L := by exact_mod_cast hlt2
  refine ⟨by omega, by omega, ?_, ?_⟩
  · zify
    rw [htn]
    exact hz1
  · zify
    rw [htn]
    exact hz2

/-- Internal: the full behaviour of `thumbnail` with the square box used
by `_process_image`: never upscales, caps the longer side at exactly `B`
whenever a side exceeds `B`, and preserves the aspect ratio within one
rounding unit. -/
theorem pilThumbnail_spec (B w h : ℕ) (hB : 1 ≤ B) (hw : 1 ≤ w)
    (hh : 1 ≤ h) :
    (pilThumbnail w h B B).1 ≤ w ∧ (pilThumbnail w h B B).2 ≤ h ∧
    (B < max w h →
      max (pilThumbnail w h B B).1 (pilThumbnail w h B B).2 = B) ∧
    (pilThumbnail w h B B).1 * h <
      (pilThumbnail w h B B).2 * w + max w h ∧
    (pilThumbnail w h B B).2 * w <
      (pilThumbnail w h B B).1 * h + max w h := by
  have hhQ : (0 : ℚ) < h := by
    have hx : 0 < h := by omega
    exact_mod_cast hx
  have hBB : (B : ℚ) / (B : ℚ) = 1 := by
    have hx : 0 < B := by omega
    have : (B : ℚ) ≠ 0 := by
      have := hx.ne'
      exact_mod_cast this
    exact div_self this
  by_cases hfit : B ≥ w ∧ B ≥ h
  · simp only [pilThumbnail, if_pos hfit]
    refine ⟨le_refl _, le_refl _, ?_, ?_, ?_⟩
    · intro hlt; omega
    · rw [Nat.mul_comm h w]
      exact Nat.lt_add_of_pos_right (by omega)
    · rw [Nat.mul_comm h w]
      exact Nat.lt_add_of_pos_right (by omega)
  · by_cases hbr : (B : ℚ) / (B : ℚ) ≥ (w : ℚ) / (h : ℚ)
    · have hwh : w ≤ h := by
        rw [hBB] at hbr
        have := (div_le_one hhQ).mp hbr
        exact_mod_cast this
      have hBh : B < h := by omega
      have harg : (B : ℚ) * ((w : ℚ) / (h : ℚ)) = (B : ℚ) * w / h := by
        ring
      simp only [pilThumbnail, if_neg hfit, if_pos hbr]
      rw [harg]
      have hs := roundAspect_shrink B w h
        (fun n => |(w : ℚ) / (h : ℚ) - (n : ℚ) / (B : ℚ)|) hB hw hBh hwh
      exact ⟨hs.1, hBh.le,
        fun _ => Nat.max_eq_right hs.2.1,
        lt_of_lt_of_le hs.2.2.1 (Nat.add_le_add_left (le_max_right w h) _),
        lt_of_lt_of_le hs.2.2.2 (Nat.add_le_add_left (le_max_right w h) _)⟩
    · have hwh : h < w := by
        rw [hBB] at hbr
        push_neg at hbr
        have := (one_lt_div hhQ).mp hbr
        exact_mod_cast this
      have hBw : B < w := by omega
      have harg : (B : ℚ) / ((w : ℚ) / (h : ℚ)) = (B : ℚ) * h / w :=
        div_div_eq_mul_div (B : ℚ) (w : ℚ) (h : ℚ) ▸ by
          rw [div_div_eq_mul_div]
      simp only [pilThumbnail, if_neg hfit, if_neg hbr]
      rw [harg]
      have hs := roundAspect_shrink B h w
        (fun n => if n = 0 then 0 else
          |(w : ℚ) / (h : ℚ) - (B : ℚ) / (n : ℚ)|) hB hh hBw hwh.le
      exact ⟨hBw.le, hs.1,
        fun _ => Nat.max_eq_left hs.2.1,
        lt_of_lt_of_le hs.2.2.2 (Nat.add_le_add_left (le_max_left w h) _),
        lt_of_lt_of_le hs.2.2.1 (Nat.add_le_add_left (le_max_left w h) _)⟩

/-! ### C6 — oversized images are downscaled, never upscaled -/

/-- C6: when an image (upright, no EXIF rotation pending) trips the size
check — a dimension above `MAX_IMAGE_DIM` or a byte size above
`MAX_IMAGE_SIZE` — `_process_image` persists it at exactly the
`thumbnail` dimensions, and those dimensions (i) never exceed the
original ones (no upscaling, in particular a byte-size-only trigger with
small dimensions leaves them unchanged), (ii) have the longer side equal
to exactly `MAX_IMAGE_DIM` whenever a dimension exceeded it, and (iii)
preserve the aspect ratio up to integer rounding
(`|w'·h − h'·w| < max w h`); in particular a 6000×4000 image becomes
exactly 3000×2000. -/
theorem image_downscale_bounds (env : Env) (d : Document) (img : RawImage)
    (hdec : env.decodeImage d.file_path = some img)
    (hor : img.orientation = 0)
    (hw : 1 ≤ img.width) (hh : 1 ≤ img.height)
    (htrig : MAX_IMAGE_DIM < max img.width img.height ∨
      MAX_IMAGE_SIZE < d.file_size) :
    savedDims (Document.processImage env d) =
      some (pilThumbnail img.width img.height MAX_IMAGE_DIM MAX_IMAGE_DIM) ∧
    (pilThumbnail img.width img.height MAX_IMAGE_DIM MAX_IMAGE_DIM).1 ≤
      img.width ∧
    (pilThumbnail img.width img.height MAX_IMAGE_DIM MAX_IMAGE_DIM).2 ≤
      img.height ∧
    (MAX_IMAGE_DIM < max img.width img.height →
      max (pilThumbnail img.width img.height MAX_IMAGE_DIM MAX_IMAGE_DIM).1
        (pilThumbnail img.width img.height MAX_IMAGE_DIM MAX_IMAGE_DIM).2 =
        MAX_IMAGE_DIM) ∧
    (pilThumbnail img.width img.height MAX_IMAGE_DIM MAX_IMAGE_DIM).1 *
        img.height <
      (pilThumbnail img.width img.height MAX_IMAGE_DIM MAX_IMAGE_DIM).2 *
        img.width + max img.width img.height ∧
    (pilThumbnail img.width img.height MAX_IMAGE_DIM MAX_IMAGE_DIM).2 *
        img.width <
      (pilThumbnail img.width img.height MAX_IMAGE_DIM MAX_IMAGE_DIM).1 *
        img.height + max img.width img.height ∧
    pilThumbnail 6000 4000 MAX_IMAGE_DIM MAX_IMAGE_DIM = (3000, 2000) := by
  have hs := pilThumbnail_spec MAX_IMAGE_DIM img.width img.height
    (by decide) hw hh
  refine ⟨?_, hs.1, hs.2.1, hs.2.2.1, hs.2.2.2.1, hs.2.2.2.2, ?_⟩
  · have himg1 : (if img.orientation ≠ 0 then exifTranspose img else img) =
        img := by
      rw [hor]; simp
    simp only [Document.processImage, hdec]
    rw [himg1, if_pos htrig]
    rfl
  · norm_num [pilThumbnail, roundAspect, MAX_IMAGE_DIM]
    decide

theorem image_downscale_bounds_witness :
    savedDims (Document.processImage envBig docImg) =
      some (pilThumbnail imgBig.width imgBig.height MAX_IMAGE_DIM
        MAX_IMAGE_DIM) :=
  (image_downscale_bounds envBig docImg imgBig rfl rfl (by decide) (by decide)
    (Or.inl (by decide))).1

/-! ### C7 — EXIF orientation is applied before the size check -/

/-- C7: for any stored image whose EXIF orientation tag (274) indicates a
non-identity transform (values 2–8), `_process_image` behaves EXACTLY as
it does on the already-upright image with the tag removed; in particular
the `MAX_IMAGE_DIM` comparison and the `thumbnail` downscaling are
performed on the post-transpose (upright) width and height — for the
dimension-swapping orientations 5–8 these are the swapped dimensions,
not the stored ones. -/
theorem image_exif_upright_before_resize (env : Env) (d : Document)
    (img : RawImage) (hdec : env.decodeImage d.file_path = some img)
    (hor : img.orientation ∈ [2, 3, 4, 5, 6, 7, 8]) :
    Document.processImage env d =
      Document.processImage
        { env with decodeImage := fun _ => some (exifTranspose img) } d := by
  have hor2 : img.orientation = 2 ∨ img.orientation = 3 ∨
      img.orientation = 4 ∨ img.orientation = 5 ∨ img.orientation = 6 ∨
      img.orientation = 7 ∨ img.orientation = 8 := by simpa using hor
  have h0 : img.orientation ≠ 0 := by
    rcases hor2 with h | h | h | h | h | h | h <;> omega
  have h1 : (exifTranspose img).orientation = 0 := by
    rcases hor2 with h | h | h | h | h | h | h <;> simp [exifTranspose, h]
  simp [Document.processImage, hdec, h0, h1]

theorem image_exif_upright_before_resize_witness :
    Document.processImage envRot docImg =
      Document.processImage
        { envRot with decodeImage := fun _ => some (exifTranspose imgRot) }
        docImg :=
  image_exif_upright_before_resize envRot docImg imgRot rfl (by decide)

end DocProc
